import Mathlib

/-!
# Verification of the `useVideoRecorder` capture/compile pipeline

Shallow embedding of the frame-capture and video-compilation hook
(`useVideoRecorder` in `src/src/hooks/useSentinelSettings.ts`) and of the
capture loop in `src/src/components/sentinel/RecordingControls.tsx`.

The hook's React state is modelled as an explicit record; each exported
operation becomes a state-passing function.  The asynchronous
`compileToVideo` promise is modelled as a function of the recorder state
together with two environment oracles: whether the 2d canvas context is
available, and which data URLs the browser can decode (an image whose
`onload` never fires leaves the promise pending forever, since the source
installs no `onerror` handler).
-/

namespace Sentinel

/-- One buffered frame: `{ dataUrl, timestamp }` as pushed by `addFrame`. -/
structure RecordedFrame where
  dataUrl : String
  timestamp : Int
  deriving Repr, DecidableEq

instance : Inhabited RecordedFrame := ⟨⟨"", 0⟩⟩

/-- The React state of `useVideoRecorder`: `isRecording`, `recordedFrames`,
`recordingDuration` and the `startTimeRef` ref. -/
structure RecorderState where
  isRecording : Bool
  recordedFrames : List RecordedFrame
  recordingDuration : Int
  startTime : Option Int
  deriving Repr, DecidableEq

/-- Initial hook state: `useState(false)`, `useState([])`, `useState(0)`,
`useRef(null)`. -/
def initialState : RecorderState :=
  { isRecording := false, recordedFrames := [], recordingDuration := 0,
    startTime := none }

/-- `startRecording`: clears the frame buffer, zeroes the duration, records
`Date.now()` in `startTimeRef` and raises `isRecording`. -/
def startRecording (_s : RecorderState) (now : Int) : RecorderState :=
  { isRecording := true, recordedFrames := [], recordingDuration := 0,
    startTime := some now }

/-- `stopRecording`: lowers `isRecording`, clears the telemetry interval and
nulls `startTimeRef`. -/
def stopRecording (s : RecorderState) : RecorderState :=
  { s with isRecording := false, startTime := none }

/-- `addFrame(dataUrl)`: appends `{ dataUrl, timestamp: Date.now() }` when
`isRecording` holds, otherwise does nothing. -/
def addFrame (s : RecorderState) (dataUrl : String) (now : Int) :
    RecorderState :=
  if s.isRecording then
    { s with recordedFrames :=
        s.recordedFrames ++ [{ dataUrl := dataUrl, timestamp := now }] }
  else s

/-- The 1-second telemetry interval set by `startRecording`:
`setRecordingDuration(Math.floor((Date.now() - startTimeRef.current) / 1000))`
when the ref is non-null. -/
def durationTick (s : RecorderState) (now : Int) : RecorderState :=
  match s.startTime with
  | some t0 => { s with recordingDuration := (now - t0) / 1000 }
  | none => s

/-! ## The compile pipeline

`compileToVideo` returns `null` at once on an empty buffer, resolves `null`
when no 2d context is available, and otherwise loads the first frame to size
the canvas; only inside that image's `onload` does it create the canvas
stream and the `MediaRecorder`.  The `drawFrame` recursion then loads frame
`frameIndex`, draws it in its `onload`, increments `frameIndex` and schedules
the next step after
`frameIndex < n ? max(33, t[frameIndex] - t[frameIndex-1]) : 33`
milliseconds.  A frame whose image never loads stops the recursion with the
promise unresolved. -/

/-- Outcome of one `compileToVideo` call.  `draws` lists, in order, each
drawn frame index paired with the `setTimeout` delay scheduled after drawing
it (the frame's hold duration). -/
inductive CompileOutcome where
  /-- `recordedFrames.length === 0`: returned `null` before creating the
  canvas. -/
  | storeEmpty : CompileOutcome
  /-- `canvas.getContext("2d")` returned `null`: resolved `null`. -/
  | noContext : CompileOutcome
  /-- the dimension-probing load of frame 0 never fired `onload`; the
  promise stays pending and no `MediaRecorder` exists. -/
  | hungOnFirstLoad : CompileOutcome
  /-- the `drawFrame` load of frame `i` never fired `onload`; the promise
  stays pending with the `MediaRecorder` started and `draws` already
  performed. -/
  | hungAt : Nat → List (Nat × Int) → CompileOutcome
  /-- every frame was drawn; `mediaRecorder.stop()` fired and the promise
  resolved with the blob. -/
  | completed : List (Nat × Int) → CompileOutcome
  deriving Repr, DecidableEq

/-- The delay `drawFrame` computes after drawing frame `i` (the source reads
it at the post-increment index):
`i+1 < n ? max(33, t[i+1] - t[i]) : 33`. -/
def drawDelay (frames : List RecordedFrame) (i : Nat) : Int :=
  if i + 1 < frames.length then
    max 33 ((frames.getD (i + 1) default).timestamp -
      (frames.getD i default).timestamp)
  else 33

/-- Worker for the `drawFrame` recursion.  `r` is the number of frames not
yet drawn (`frames.length - i`), carried separately so the recursion is
structural; the loop itself exits exactly when `frameIndex >= n`. -/
def drawLoopGo (decodes : String → Bool) (frames : List RecordedFrame) :
    Nat → Nat → List (Nat × Int) → CompileOutcome
  | 0, _, acc => .completed acc
  | r + 1, i, acc =>
    if h : i < frames.length then
      if decodes (frames.get ⟨i, h⟩).dataUrl then
        drawLoopGo decodes frames r (i + 1) (acc ++ [(i, drawDelay frames i)])
      else
        .hungAt i acc
    else
      .completed acc

/-- The `drawFrame` recursion, from frame index `i` with the draws already
performed in `acc`. -/
def drawLoop (decodes : String → Bool) (frames : List RecordedFrame)
    (i : Nat) (acc : List (Nat × Int)) : CompileOutcome :=
  drawLoopGo decodes frames (frames.length - i) i acc

/-- `compileToVideo`, as a function of the recorder state and of the two
environment oracles.  It never calls a state setter, so the state passes
through unchanged. -/
def compileToVideo (decodes : String → Bool) (ctxAvailable : Bool)
    (s : RecorderState) : RecorderState × CompileOutcome :=
  (s,
    if s.recordedFrames.length = 0 then .storeEmpty
    else if ¬ ctxAvailable then .noContext
    else if ¬ decodes (s.recordedFrames.getD 0 default).dataUrl then
      .hungOnFirstLoad
    else drawLoop decodes s.recordedFrames 0 [])

/-- An outcome settles (the promise resolves) exactly when the source
reaches a `resolve` call or the early `return null`. -/
def CompileOutcome.settles : CompileOutcome → Bool
  | .storeEmpty => true
  | .noContext => true
  | .hungOnFirstLoad => false
  | .hungAt _ _ => false
  | .completed _ => true

/-- An outcome in which the canvas stream and `MediaRecorder` were created
(both happen only inside the first image's `onload`). -/
def CompileOutcome.encoderInvoked : CompileOutcome → Bool
  | .storeEmpty => false
  | .noContext => false
  | .hungOnFirstLoad => false
  | .hungAt _ _ => true
  | .completed _ => true

/-- Timestamp of the frame at index `j` (default `0` out of range), matching
the source's `recordedFrames[j].timestamp` accesses. -/
def tsAt (frames : List RecordedFrame) (j : Nat) : Int :=
  (frames.getD j default).timestamp

/-- The ordered list of hold durations the `drawFrame` loop schedules: the
delay after drawing frame `j`, for `j = 0 .. n-1`. -/
def holdDurations (frames : List RecordedFrame) : List Int :=
  (List.range' 0 frames.length).map (drawDelay frames)

/-! ## Trace semantics of the hook

The capture interval set by `RecordingControls` fires `addFrame` ticks; the
buttons fire `startRecording`/`stopRecording`/`compileToVideo`; the
telemetry interval fires duration ticks.  Each call observes `Date.now()`;
a trace is the list of calls paired with the clock reading at each call,
and a real execution has non-decreasing clock readings. -/

/-- One call into the hook's public interface. -/
inductive Action where
  | start : Action
  | stop : Action
  | frame : String → Action
  | tick : Action
  | compile : (String → Bool) → Bool → Action

/-- Dispatch one call at clock reading `now`. -/
def step (s : RecorderState) (now : Int) : Action → RecorderState
  | .start => startRecording s now
  | .stop => stopRecording s
  | .frame d => addFrame s d now
  | .tick => durationTick s now
  | .compile decodes ctx => (compileToVideo decodes ctx s).1

/-- Run a timed trace of calls from a state. -/
def run (s : RecorderState) : List (Int × Action) → RecorderState
  | [] => s
  | (t, a) :: rest => run (step s t a) rest

/-- A stopped session holding three frames captured at 0, 100 and 140 ms. -/
def demoState : RecorderState :=
  { isRecording := false,
    recordedFrames :=
      [{ dataUrl := "f0", timestamp := 0 },
       { dataUrl := "f1", timestamp := 100 },
       { dataUrl := "f2", timestamp := 140 }],
    recordingDuration := 0, startTime := none }

/-- A stopped session holding one frame whose data URL the browser cannot
decode. -/
def badFrameState : RecorderState :=
  { isRecording := false,
    recordedFrames := [{ dataUrl := "corrupt", timestamp := 0 }],
    recordingDuration := 0, startTime := none }

/-! ## Helper lemmas -/

/-- The delay after each drawn frame is at least the 33 ms floor. -/
lemma drawDelay_ge (frames : List RecordedFrame) (j : Nat) :
    33 ≤ drawDelay frames j := by
  unfold drawDelay
  split
  · exact le_max_left _ _
  · exact le_refl _

/-- For a non-final frame the delay is the clamped inter-arrival gap. -/
lemma drawDelay_mid (frames : List RecordedFrame) (j : Nat)
    (h : j + 1 < frames.length) :
    drawDelay frames j = max 33 (tsAt frames (j + 1) - tsAt frames j) := by
  unfold drawDelay tsAt
  rw [if_pos h]

/-- For the final frame the delay is exactly 33 ms. -/
lemma drawDelay_last (frames : List RecordedFrame) :
    drawDelay frames (frames.length - 1) = 33 := by
  unfold drawDelay
  rw [if_neg]
  omega

/-- When every buffered frame decodes, the draw loop completes and draws
each remaining index in order with its scheduled delay. -/
lemma drawLoopGo_all_decode (decodes : String → Bool)
    (frames : List RecordedFrame)
    (hdec : ∀ f ∈ frames, decodes f.dataUrl = true) :
    ∀ r i acc, frames.length - i = r →
      drawLoopGo decodes frames r i acc =
        .completed (acc ++ (List.range' i r).map
          (fun j => (j, drawDelay frames j))) := by
  intro r
  induction r with
  | zero =>
    intro i acc _
    simp [drawLoopGo]
  | succ r ih =>
    intro i acc hr
    have hi : i < frames.length := by omega
    have hd : decodes (frames.get ⟨i, hi⟩).dataUrl = true :=
      hdec _ (frames.get_mem _ _)
    simp only [drawLoopGo, dif_pos hi, hd, if_true]
    rw [ih (i + 1) _ (by omega), List.range'_succ, List.map_cons]
    simp

/-- If some frame at index `≥ i` fails to decode, the draw loop hangs. -/
lemma drawLoopGo_hangs (decodes : String → Bool)
    (frames : List RecordedFrame) :
    ∀ r i acc, frames.length - i = r →
      (∃ j, i ≤ j ∧ ∃ hj : j < frames.length,
        decodes (frames.get ⟨j, hj⟩).dataUrl = false) →
      (drawLoopGo decodes frames r i acc).settles = false := by
  intro r
  induction r with
  | zero =>
    intro i acc hr hex
    obtain ⟨j, hij, hj, _⟩ := hex
    omega
  | succ r ih =>
    intro i acc hr hex
    obtain ⟨j, hij, hj, hjf⟩ := hex
    have hi : i < frames.length := by omega
    simp only [drawLoopGo, dif_pos hi]
    by_cases hd : decodes (frames.get ⟨i, hi⟩).dataUrl = true
    · rw [if_pos hd]
      apply ih (i + 1) _ (by omega)
      refine ⟨j, ?_, hj, hjf⟩
      rcases Nat.eq_or_lt_of_le hij with he | hl
      · exfalso
        have : decodes (frames.get ⟨j, hj⟩).dataUrl = true := by
          have : (⟨i, hi⟩ : Fin frames.length) = ⟨j, hj⟩ := by
            apply Fin.ext
            exact he
          rw [← this]
          exact hd
        rw [this] at hjf
        exact Bool.noConfusion hjf
      · omega
    · rw [if_neg hd]
      rfl

/-- When every buffered frame decodes and a 2d context exists, the compile
draws every frame in capture order with its scheduled delay and resolves. -/
lemma compileToVideo_all_decode (decodes : String → Bool)
    (s : RecorderState)
    (hdec : ∀ f ∈ s.recordedFrames, decodes f.dataUrl = true)
    (hne : s.recordedFrames ≠ []) :
    (compileToVideo decodes true s).2 =
      .completed ((List.range' 0 s.recordedFrames.length).map
        (fun j => (j, drawDelay s.recordedFrames j))) := by
  have hlen : s.recordedFrames.length ≠ 0 := by
    have := List.length_pos.mpr hne
    omega
  have h0 : decodes (s.recordedFrames.getD 0 default).dataUrl = true := by
    apply hdec
    cases hfr : s.recordedFrames with
    | nil => exact absurd hfr hne
    | cons f rest => simp [hfr]
  simp only [compileToVideo, if_neg hlen, h0]
  simp only [not_true, if_neg, if_false]
  rw [drawLoop, drawLoopGo_all_decode decodes _ hdec _ 0 [] (by omega)]
  simp

/-- Lower bound for the scheduled delays over indices `i .. n-1`: they sum
to at least the remaining elapsed capture time plus the 33 ms tail. -/
lemma holds_sum_ge (frames : List RecordedFrame) :
    ∀ r i, i + r = frames.length → i < frames.length →
      tsAt frames (frames.length - 1) - tsAt frames i + 33 ≤
        ((List.range' i r).map (drawDelay frames)).sum := by
  intro r
  induction r with
  | zero =>
    intro i h hi
    omega
  | succ r ih =>
    intro i h hi
    rw [List.range'_succ, List.map_cons, List.sum_cons]
    rcases Nat.eq_zero_or_pos r with hr | hr
    · subst hr
      have hieq : i = frames.length - 1 := by omega
      subst hieq
      rw [drawDelay_last]
      simp
    · have h1 := ih (i + 1) (by omega) (by omega)
      have h2 : tsAt frames (i + 1) - tsAt frames i ≤ drawDelay frames i := by
        rw [drawDelay_mid frames i (by omega)]
        exact le_max_right _ _
      omega

/-- When every consecutive gap is at least 33 ms, the scheduled delays over
indices `i .. n-1` sum to exactly the remaining elapsed capture time plus
the 33 ms tail. -/
lemma holds_sum_eq (frames : List RecordedFrame)
    (hgap : ∀ j, j + 1 < frames.length →
      33 ≤ tsAt frames (j + 1) - tsAt frames j) :
    ∀ r i, i + r = frames.length → i < frames.length →
      ((List.range' i r).map (drawDelay frames)).sum =
        tsAt frames (frames.length - 1) - tsAt frames i + 33 := by
  intro r
  induction r with
  | zero =>
    intro i h hi
    omega
  | succ r ih =>
    intro i h hi
    rw [List.range'_succ, List.map_cons, List.sum_cons]
    rcases Nat.eq_zero_or_pos r with hr | hr
    · subst hr
      have hieq : i = frames.length - 1 := by omega
      subst hieq
      rw [drawDelay_last]
      simp
    · have h1 := ih (i + 1) (by omega) (by omega)
      have h2 : drawDelay frames i = tsAt frames (i + 1) - tsAt frames i := by
        rw [drawDelay_mid frames i (by omega)]
        exact max_eq_right (hgap i (by omega))
      omega

/-- A member of `getLast?` is a member of the list. -/
lemma mem_of_mem_getLast {α : Type} {l : List α} {x : α}
    (h : x ∈ l.getLast?) : x ∈ l := by
  obtain ⟨hne, rfl⟩ := List.mem_getLast?_eq_getLast h
  exact List.getLast_mem hne

/-- Appending an upper bound to a sorted-≤ list keeps it sorted. -/
lemma chain_append_singleton {l : List Int} {t : Int}
    (hl : List.Chain' (· ≤ ·) l) (hb : ∀ x ∈ l, x ≤ t) :
    List.Chain' (· ≤ ·) (l ++ [t]) := by
  rw [List.chain'_append]
  refine ⟨hl, List.chain'_singleton _, ?_⟩
  intro x hx y hy
  simp only [List.head?_cons, Option.mem_def, Option.some.injEq] at hy
  subst hy
  exact hb x (mem_of_mem_getLast hx)

/-- Each call either leaves the frame buffer alone, clears it, or appends
one frame stamped with the current clock reading. -/
lemma step_frames (s : RecorderState) (t : Int) (a : Action) :
    (step s t a).recordedFrames = s.recordedFrames ∨
    (step s t a).recordedFrames = [] ∨
    ∃ d, (step s t a).recordedFrames =
      s.recordedFrames ++ [{ dataUrl := d, timestamp := t }] := by
  cases a with
  | start => exact Or.inr (Or.inl rfl)
  | stop => exact Or.inl rfl
  | frame d =>
    by_cases hrec : s.isRecording
    · exact Or.inr (Or.inr ⟨d, by simp [step, addFrame, hrec]⟩)
    · exact Or.inl (by simp [step, addFrame, hrec])
  | tick =>
    cases hst : s.startTime with
    | none => exact Or.inl (by simp [step, durationTick, hst])
    | some t0 => exact Or.inl (by simp [step, durationTick, hst])
  | compile decodes ctx => exact Or.inl rfl

/-- Running any timed trace whose clock readings are non-decreasing, from a
state whose buffered timestamps are sorted and bounded by the next clock
reading, keeps the buffered timestamps sorted. -/
lemma run_preserves_chain :
    ∀ (trace : List (Int × Action)) (s : RecorderState),
      List.Chain' (· ≤ ·) (trace.map Prod.fst) →
      List.Chain' (· ≤ ·) (s.recordedFrames.map RecordedFrame.timestamp) →
      (∀ f ∈ s.recordedFrames, ∀ e ∈ trace.head?, f.timestamp ≤ e.1) →
      List.Chain' (· ≤ ·)
        ((run s trace).recordedFrames.map RecordedFrame.timestamp) := by
  intro trace
  induction trace with
  | nil =>
    intro s _ hs _
    exact hs
  | cons e rest ih =>
    obtain ⟨t, a⟩ := e
    intro s hclock hs hb
    have hbt : ∀ f ∈ s.recordedFrames, f.timestamp ≤ t := by
      intro f hf
      exact hb f hf (t, a) (by simp)
    have ht_rest : ∀ e ∈ rest.head?, t ≤ e.1 := by
      cases rest with
      | nil =>
        intro e he
        simp at he
      | cons e2 rest2 =>
        intro e he
        simp only [List.head?_cons, Option.mem_def, Option.some.injEq] at he
        subst he
        have hcc := hclock
        rw [List.map_cons, List.map_cons] at hcc
        exact (List.chain'_cons.mp hcc).1
    have hclock2 : List.Chain' (· ≤ ·) (rest.map Prod.fst) := by
      have hcc := hclock
      rw [List.map_cons] at hcc
      exact hcc.tail
    show List.Chain' _ ((run (step s t a) rest).recordedFrames.map _)
    rcases step_frames s t a with hcase | hcase | ⟨d, hcase⟩
    · apply ih (step s t a) hclock2
      · rw [hcase]
        exact hs
      · intro f hf e he
        rw [hcase] at hf
        exact le_trans (hbt f hf) (ht_rest e he)
    · apply ih (step s t a) hclock2
      · rw [hcase]
        simp
      · intro f hf e he
        rw [hcase] at hf
        simp at hf
    · apply ih (step s t a) hclock2
      · rw [hcase, List.map_append, List.map_cons, List.map_nil]
        apply chain_append_singleton hs
        intro x hx
        obtain ⟨f, hf, rfl⟩ := List.mem_map.mp hx
        exact hbt f hf
      · intro f hf e he
        rw [hcase] at hf
        rcases List.mem_append.mp hf with hf2 | hf2
        · exact le_trans (hbt f hf2) (ht_rest e he)
        · simp only [List.mem_singleton] at hf2
          subst hf2
          exact ht_rest e he

/-! ## Claim theorems -/

/-- Claim C1: for `n ≥ 1` buffered frames with strictly increasing capture
timestamps, when every frame decodes, `compileToVideo` draws every frame in
order and schedules after frame `i` (for `i < n-1`) a hold of exactly
`max(minFrameInterval, t[i+1] - t[i])` milliseconds, and after the last
frame exactly `minFrameInterval = 33`; with `n = 1` the single frame is
held for 33 ms. -/
theorem compile_hold_schedule (decodes : String → Bool) (s : RecorderState)
    (hdec : ∀ f ∈ s.recordedFrames, decodes f.dataUrl = true)
    (hne : s.recordedFrames ≠ [])
    (_hmono : List.Chain' (· < ·)
      (s.recordedFrames.map RecordedFrame.timestamp)) :
    (compileToVideo decodes true s).2 =
      .completed ((List.range' 0 s.recordedFrames.length).map
        (fun j => (j, drawDelay s.recordedFrames j))) ∧
    (∀ i, i + 1 < s.recordedFrames.length →
      drawDelay s.recordedFrames i =
        max 33 (tsAt s.recordedFrames (i + 1) - tsAt s.recordedFrames i)) ∧
    drawDelay s.recordedFrames (s.recordedFrames.length - 1) = 33 := by
  refine ⟨compileToVideo_all_decode decodes s hdec hne, ?_, drawDelay_last _⟩
  intro i hi
  exact drawDelay_mid _ i hi

/-- Witness for C1: three frames captured at 0, 100 and 140 ms yield holds
of 100, 40 and 33 ms. -/
theorem compile_hold_schedule_witness :
    (compileToVideo (fun _ => true) true demoState).2 =
      .completed [(0, 100), (1, 40), (2, 33)] := by
  have h := compile_hold_schedule (fun _ => true) demoState
    (by intro f _; rfl) (by decide)
    (by norm_num [demoState, List.chain'_cons])
  rw [h.1]
  rfl

/-- Claim C3 counterexample: with one buffered frame whose still image
fails to decode, the compile attempt neither aborts with an error nor
resolves: the promise never settles (the source installs no `onerror`
handler, so the `onload`-driven recursion simply stops). -/
theorem compile_decode_failure_cex :
    (fun _ => false : String → Bool) "corrupt" = false ∧
    (compileToVideo (fun _ => false) true badFrameState).2 =
      .hungOnFirstLoad ∧
    (compileToVideo (fun _ => false) true badFrameState).2.settles
      = false := by
  refine ⟨rfl, ?_, ?_⟩ <;> rfl

/-- Claim C3 amended: if a buffered still image fails to decode during
compile, the compile attempt never settles (it hangs rather than reporting
an error), and the FrameStore is left untouched so the caller may retry. -/
theorem compile_decode_failure_hangs (decodes : String → Bool)
    (s : RecorderState) (_hne : s.recordedFrames ≠ [])
    (hbad : ∃ f ∈ s.recordedFrames, decodes f.dataUrl = false) :
    (compileToVideo decodes true s).2.settles = false ∧
    (compileToVideo decodes true s).1.recordedFrames =
      s.recordedFrames := by
  refine ⟨?_, rfl⟩
  obtain ⟨f, hf, hfbad⟩ := hbad
  obtain ⟨⟨j, hj⟩, rfl⟩ := List.mem_iff_get.mp hf
  have hlen : s.recordedFrames.length ≠ 0 := by omega
  show (if s.recordedFrames.length = 0 then CompileOutcome.storeEmpty
    else if ¬ (true : Bool) then CompileOutcome.noContext
    else if ¬ decodes (s.recordedFrames.getD 0 default).dataUrl then
      CompileOutcome.hungOnFirstLoad
    else drawLoop decodes s.recordedFrames 0 []).settles = false
  rw [if_neg hlen, if_neg (by simp)]
  by_cases h0 : decodes (s.recordedFrames.getD 0 default).dataUrl = true
  · rw [if_neg (by simpa using h0)]
    rw [drawLoop]
    exact drawLoopGo_hangs decodes _ _ 0 [] rfl ⟨j, Nat.zero_le _, hj, hfbad⟩
  · rw [if_pos (by simpa using h0)]
    rfl

/-- Witness for the amended C3 at a concrete undecodable frame. -/
theorem compile_decode_failure_hangs_witness :
    badFrameState.recordedFrames ≠ [] ∧
    (compileToVideo (fun _ => false) true badFrameState).2.settles
      = false ∧
    (compileToVideo (fun _ => false) true badFrameState).1.recordedFrames =
      badFrameState.recordedFrames := by
  have h := compile_decode_failure_hangs (fun _ => false) badFrameState
    (by decide)
    ⟨{ dataUrl := "corrupt", timestamp := 0 }, by decide, rfl⟩
  exact ⟨by decide, h.1, h.2⟩

/-- Claim C4: a compile requested with zero buffered frames returns the
empty-store result at once, and neither the canvas stream nor the
`MediaRecorder` is ever created. -/
theorem compile_empty_store (decodes : String → Bool) (ctx : Bool)
    (s : RecorderState) (h : s.recordedFrames = []) :
    (compileToVideo decodes ctx s).2 = .storeEmpty ∧
    (compileToVideo decodes ctx s).2.encoderInvoked = false := by
  have hlen : s.recordedFrames.length = 0 := by rw [h]; rfl
  constructor
  · simp [compileToVideo, hlen]
  · simp [compileToVideo, hlen, CompileOutcome.encoderInvoked]

/-- Witness for C4 at the initial (empty) state. -/
theorem compile_empty_store_witness :
    initialState.recordedFrames = [] ∧
    (compileToVideo (fun _ => true) true initialState).2 = .storeEmpty ∧
    (compileToVideo (fun _ => true) true initialState).2.encoderInvoked
      = false := by
  have h := compile_empty_store (fun _ => true) true initialState rfl
  exact ⟨rfl, h.1, h.2⟩

/-- Claim C5: `compileToVideo` never mutates the FrameStore: for every
state and every environment (decode outcomes, context availability), the
`recordedFrames` sequence after the call equals the sequence before it. -/
theorem compile_preserves_frameStore (decodes : String → Bool) (ctx : Bool)
    (s : RecorderState) :
    (compileToVideo decodes ctx s).1.recordedFrames = s.recordedFrames :=
  rfl

/-- Claim C6: for `N ≥ 1` frames with strictly increasing timestamps the
timing reconstruction emits exactly `N` hold durations, each at least 33,
their sum is at least `(t[N-1] - t[0]) + 33`, and equals it whenever every
consecutive gap is at least 33. -/
theorem timing_reconstruction_props (frames : List RecordedFrame)
    (hne : frames ≠ [])
    (_hmono : List.Chain' (· < ·) (frames.map RecordedFrame.timestamp)) :
    (holdDurations frames).length = frames.length ∧
    (∀ d ∈ holdDurations frames, 33 ≤ d) ∧
    tsAt frames (frames.length - 1) - tsAt frames 0 + 33 ≤
      (holdDurations frames).sum ∧
    ((∀ j, j + 1 < frames.length →
        33 ≤ tsAt frames (j + 1) - tsAt frames j) →
      (holdDurations frames).sum =
        tsAt frames (frames.length - 1) - tsAt frames 0 + 33) := by
  have hpos : 0 < frames.length := List.length_pos.mpr hne
  refine ⟨?_, ?_, ?_, ?_⟩
  · simp [holdDurations]
  · intro d hd
    obtain ⟨j, _, rfl⟩ := List.mem_map.mp hd
    exact drawDelay_ge frames j
  · have h := holds_sum_ge frames frames.length 0 (by omega) hpos
    simpa [holdDurations] using h
  · intro hgap
    have h := holds_sum_eq frames hgap frames.length 0 (by omega) hpos
    simpa [holdDurations] using h

/-- Witness for C6: the demo session's three holds are 100, 40 and 33,
summing to `(140 - 0) + 33 = 173`. -/
theorem timing_reconstruction_props_witness :
    demoState.recordedFrames ≠ [] ∧
    (holdDurations demoState.recordedFrames).length = 3 ∧
    (holdDurations demoState.recordedFrames).sum = 173 := by
  have h := timing_reconstruction_props demoState.recordedFrames
    (by decide) (by norm_num [demoState, List.chain'_cons])
  refine ⟨by decide, ?_, ?_⟩
  · rw [h.1]
    rfl
  · have hsum := h.2.2.2 (by
      intro j hj
      have hj2 : j = 0 ∨ j = 1 := by
        simp [demoState] at hj
        omega
      rcases hj2 with rfl | rfl <;> decide)
    rw [hsum]
    rfl

/-- Claim C7: `startRecording` always sets the captured-frame buffer to
empty and the elapsed duration to 0, for every prior state. -/
theorem start_resets_counters (s : RecorderState) (now : Int) :
    (startRecording s now).recordedFrames = [] ∧
    (startRecording s now).recordingDuration = 0 :=
  ⟨rfl, rfl⟩

/-- Claim C9: along every timed trace of hook calls whose clock readings
are non-decreasing, the buffered frames' `capturedAt` timestamps are
non-decreasing in insertion order. -/
theorem frameStore_timestamps_monotone (trace : List (Int × Action))
    (hclock : List.Chain' (· ≤ ·) (trace.map Prod.fst)) :
    List.Chain' (· ≤ ·)
      ((run initialState trace).recordedFrames.map
        RecordedFrame.timestamp) := by
  apply run_preserves_chain trace initialState hclock
  · simp [initialState]
  · intro f hf e _
    simp [initialState] at hf

/-- Witness for C9 on a concrete start / frame / frame / stop trace. -/
theorem frameStore_timestamps_monotone_witness :
    List.Chain' (· ≤ ·)
      (([(0, Action.start), (3, Action.frame "x"), (7, Action.frame "y"),
          (9, Action.stop)] : List (Int × Action)).map Prod.fst) ∧
    List.Chain' (· ≤ ·)
      ((run initialState
          [(0, Action.start), (3, Action.frame "x"), (7, Action.frame "y"),
           (9, Action.stop)]).recordedFrames.map RecordedFrame.timestamp) :=
  ⟨by norm_num [List.chain'_cons],
    frameStore_timestamps_monotone _ (by norm_num [List.chain'_cons])⟩

/-- Claim C10: `addFrame` called while the recorder is not recording is a
no-op: the whole hook state, in particular `recordedFrames`, is left
unchanged for every data URL and clock reading. -/
theorem addFrame_inactive_noop (s : RecorderState) (dataUrl : String)
    (now : Int) (h : s.isRecording = false) :
    addFrame s dataUrl now = s := by
  simp [addFrame, h]

/-- Witness for C10 at the initial (not recording) state. -/
theorem addFrame_inactive_noop_witness :
    initialState.isRecording = false ∧
    addFrame initialState "snapshot" 42 = initialState :=
  ⟨rfl, addFrame_inactive_noop initialState "snapshot" 42 rfl⟩

end Sentinel
